import Mathlib

/-!
Verification of the script d-plex-hw-optimizer.py.

A shallow embedding of the Plex library optimizer script, together with
theorems settling the specification claims about it.

The script walks a movie library, probes each video file with an external
metadata tool, and re-encodes qualifying files with an external transcoder
into a `Custom Versions/1Mbps` subfolder.  We embed:

* the pure arithmetic (`calculate_new_resolution`, the GOP size computation,
  `is_video_file`) directly as Lean functions, with Python's float arithmetic
  modelled by exact rational arithmetic and Python's `int()` truncation
  modelled by `pyInt`;
* the effectful loop `process_videos` as a function from an abstract
  environment (probe results, pre-existing output files, transcoder exit
  statuses) and an abstract directory walk to a trace of external-tool
  invocations, the final set of output files, and an optional abort
  (an uncaught Python exception).
-/

set_option maxRecDepth 8192

/-- Constants from the script. -/
def VIDEO_BITRATE : ℚ := 1000

def GOP_SIZE_FACTOR : ℚ := 1 / 2

def TARGET_HORIZONTAL_RES : ℤ := 854

def TARGET_VERTICAL_RES : ℤ := 480

def CUSTOM_VERSIONS : String := "Custom Versions"

/-- Python's `int()` applied to an exact rational: truncation toward zero,
i.e. T-division of the reduced numerator by the denominator. -/
def pyInt (q : ℚ) : ℤ := q.num.tdiv q.den

/-- On nonnegative rationals, Python's truncation agrees with the floor. -/
theorem pyInt_eq_floor {q : ℚ} (hq : 0 ≤ q) : pyInt q = ⌊q⌋ := by
  rw [pyInt, Int.tdiv_eq_ediv (Rat.num_nonneg.mpr hq) (Int.ofNat_nonneg q.den),
    Rat.floor_def]

/-- Here `startsWithL s p` is true when `p` is a leading segment of `s`
(character-by-character, case-sensitive). -/
def startsWithL : List Char → List Char → Bool
  | _, [] => true
  | [], _ :: _ => false
  | a :: s, b :: p => a == b && startsWithL s p

/-- Here `endsWithL s p` is Python `s.endswith(p)` on exploded strings. -/
def endsWithL (s p : List Char) : Bool := startsWithL s.reverse p.reverse

/-- Here `containsL s p` is the Python `p in s` substring test on exploded strings. -/
def containsL : List Char → List Char → Bool
  | [], p => p.isEmpty
  | a :: s, p => startsWithL (a :: s) p || containsL s p

/-- Function `is_video_file` from the script: the filename ends with one of the four
lower-case extensions. -/
def is_video_file (filename : String) : Bool :=
  [".mp4", ".mkv", ".webm", ".avi"].any fun ext => endsWithL filename.data ext.data

/-- Function `calculate_new_resolution` from the script.  Python raises
`ZeroDivisionError` when a divisor is zero, so the embedding returns `none`
there; otherwise it mirrors the two-branch aspect-preserving scale. -/
def calculate_new_resolution (width height : ℤ) : Option (ℤ × ℤ) :=
  if width = 0 then none
  else
    let new_height := pyInt ((height : ℚ) * ((TARGET_HORIZONTAL_RES : ℚ) / (width : ℚ)))
    if TARGET_VERTICAL_RES < new_height then
      if height = 0 then none
      else some (pyInt ((width : ℚ) * ((TARGET_VERTICAL_RES : ℚ) / (height : ℚ))), TARGET_VERTICAL_RES)
    else some (TARGET_HORIZONTAL_RES, new_height)

/-- The GOP size computation `int(framerate * GOP_SIZE_FACTOR)` from `process_videos`. -/
def gop_size (framerate : ℚ) : ℤ := pyInt (framerate * GOP_SIZE_FACTOR)

/-- The four scalars the script extracts from a successful `mediainfo` probe
(`get_video_info`): frame rate, bitrate already converted to kbps, width,
height. -/
structure ProbeInfo where
  framerate : ℚ
  bitrate : ℚ
  width : ℤ
  height : ℤ
deriving DecidableEq

/-- An invocation of one of the two external tools on a source file,
identified by the directory `root` and file name `file`. -/
inductive Event where
  | probe (root file : String)
  | transcode (root file : String)
deriving DecidableEq

/-- An uncaught Python exception that terminates the run: `ZeroDivisionError`
inside `calculate_new_resolution`, or `CalledProcessError` from the `ffmpeg`
call (`check=True` with no surrounding `try`). -/
inductive AbortKind where
  | zeroDiv (root file : String)
  | ffmpegFail (root file : String)
deriving DecidableEq

/-- The environment a run of `process_videos` observes: what `get_video_info`
returns per source path (`none` is the caught-exception path that yields
`(None, None, None, None)`), which file names already exist in the
`Custom Versions/1Mbps` output folder, and whether `ffmpeg` exits 0 per
source path. -/
structure Env where
  probe : String → String → Option ProbeInfo
  existingOutputs : List String
  transcodeOk : String → String → Bool

/-- Result of (part of) a run: the trace of tool invocations, the file names
present in the output folder afterwards, and the abort, if one occurred. -/
structure RunResult where
  trace : List Event
  existing : List String
  abort : Option AbortKind
deriving DecidableEq

/-- The body of the inner loop of `process_videos` for one directory entry
`file` under directory `root`: extension filter, already-converted skip,
probe, bitrate threshold, resolution computation (which may raise), and the
`ffmpeg` call (which may fail).  A successful transcode writes the output
file, so the name joins `existing`. -/
def stepFile (env : Env) (root file : String) (existing : List String) : RunResult :=
  if is_video_file file = true then
    if file ∈ existing then ⟨[], existing, none⟩
    else
      match env.probe root file with
      | none => ⟨[Event.probe root file], existing, none⟩
      | some info =>
        if info.bitrate < VIDEO_BITRATE then ⟨[Event.probe root file], existing, none⟩
        else
          match calculate_new_resolution info.width info.height with
          | none => ⟨[Event.probe root file], existing, some (AbortKind.zeroDiv root file)⟩
          | some _ =>
            if env.transcodeOk root file = true then
              ⟨[Event.probe root file, Event.transcode root file], existing ++ [file], none⟩
            else
              ⟨[Event.probe root file, Event.transcode root file], existing,
                some (AbortKind.ffmpegFail root file)⟩
  else ⟨[], existing, none⟩

/-- The inner loop of `process_videos` over the files of one walk entry.
An abort stops the loop; otherwise the output-folder contents thread through. -/
def runFiles (env : Env) (root : String) : List String → List String → RunResult
  | [], existing => ⟨[], existing, none⟩
  | file :: files, existing =>
    let r := stepFile env root file existing
    if r.abort.isSome then r
    else
      ⟨r.trace ++ (runFiles env root files r.existing).trace,
        (runFiles env root files r.existing).existing,
        (runFiles env root files r.existing).abort⟩

/-- The outer loop of `process_videos` over the `os.walk` entries: an entry
whose directory path contains the substring `"Custom Versions"` is skipped
wholesale (`continue`), and an abort stops the walk. -/
def runWalk (env : Env) : List (String × List String) → List String → RunResult
  | [], existing => ⟨[], existing, none⟩
  | (root, files) :: rest, existing =>
    if containsL root.data CUSTOM_VERSIONS.data = true then runWalk env rest existing
    else
      let r := runFiles env root files existing
      if r.abort.isSome then r
      else
        ⟨r.trace ++ (runWalk env rest r.existing).trace,
          (runWalk env rest r.existing).existing,
          (runWalk env rest r.existing).abort⟩

/-- Function `process_videos`, for one movie folder: run the walk starting from the
output files already on disk. -/
def process_videos (env : Env) (walk : List (String × List String)) : RunResult :=
  runWalk env walk env.existingOutputs

/-- The loop of `main` over the movie folders of the library: each folder is
one `process_videos` run; an uncaught exception aborts the whole program, so
no later folder is visited. -/
def runLibrary : List (Env × List (String × List String)) → List Event × Option AbortKind
  | [] => ([], none)
  | (env, walk) :: rest =>
    let r := process_videos env walk
    if r.abort.isSome then (r.trace, r.abort)
    else (r.trace ++ (runLibrary rest).1, (runLibrary rest).2)

/-! ## Arithmetic lemmas for the resolution computation -/

/-- With a nonzero width the resolution computation never raises: the second
divisor (`height`) is only reached when the first scaled height exceeded the
cap, which forces `height ≠ 0`. -/
theorem calculate_new_resolution_isSome {w h : ℤ} (hw : w ≠ 0) :
    ∃ p, calculate_new_resolution w h = some p := by
  rw [calculate_new_resolution, if_neg hw]
  by_cases hbr : TARGET_VERTICAL_RES <
      pyInt ((h : ℚ) * ((TARGET_HORIZONTAL_RES : ℚ) / (w : ℚ)))
  · have hh : h ≠ 0 := by
      rintro rfl
      rw [show ((0 : ℤ) : ℚ) = 0 from rfl, zero_mul] at hbr
      rw [show pyInt 0 = 0 from rfl] at hbr
      exact absurd hbr (by norm_num [TARGET_VERTICAL_RES])
    simp only [if_pos hbr, if_neg hh]
    exact ⟨_, rfl⟩
  · simp only [if_neg hbr]
    exact ⟨_, rfl⟩

/-- On positive inputs the returned dimensions are nonnegative and within the
caps; this is the content behind the claims on `calculate_new_resolution`'s
output. -/
theorem calculate_new_resolution_le {w h nw nh : ℤ} (hw : 0 < w) (hh : 0 < h)
    (hr : calculate_new_resolution w h = some (nw, nh)) :
    0 ≤ nw ∧ nw ≤ TARGET_HORIZONTAL_RES ∧ 0 ≤ nh ∧ nh ≤ TARGET_VERTICAL_RES := by
  have hwQ : (0 : ℚ) < (w : ℚ) := by exact_mod_cast hw
  have hhQ : (0 : ℚ) < (h : ℚ) := by exact_mod_cast hh
  have hq1 : (0 : ℚ) ≤ (h : ℚ) * ((TARGET_HORIZONTAL_RES : ℚ) / (w : ℚ)) := by
    have h854 : (0 : ℚ) ≤ (TARGET_HORIZONTAL_RES : ℚ) := by
      norm_num [TARGET_HORIZONTAL_RES]
    positivity
  have hq2 : (0 : ℚ) ≤ (w : ℚ) * ((TARGET_VERTICAL_RES : ℚ) / (h : ℚ)) := by
    have h480 : (0 : ℚ) ≤ (TARGET_VERTICAL_RES : ℚ) := by
      norm_num [TARGET_VERTICAL_RES]
    positivity
  rw [calculate_new_resolution, if_neg hw.ne'] at hr
  by_cases hbr : TARGET_VERTICAL_RES <
      pyInt ((h : ℚ) * ((TARGET_HORIZONTAL_RES : ℚ) / (w : ℚ)))
  · rw [if_pos hbr, if_neg hh.ne'] at hr
    obtain ⟨rfl, rfl⟩ : pyInt ((w : ℚ) * ((TARGET_VERTICAL_RES : ℚ) / (h : ℚ))) = nw ∧
        TARGET_VERTICAL_RES = nh := by
      have := hr
      simp only [Option.some.injEq, Prod.mk.injEq] at this
      exact this
    refine ⟨?_, ?_, by norm_num [TARGET_VERTICAL_RES], le_refl _⟩
    · rw [pyInt_eq_floor hq2]
      exact Int.floor_nonneg.mpr hq2
    · rw [pyInt_eq_floor hq2]
      rw [pyInt_eq_floor hq1] at hbr
      have h481 : ((481 : ℤ) : ℚ) ≤ (h : ℚ) * ((TARGET_HORIZONTAL_RES : ℚ) / (w : ℚ)) := by
        refine Int.le_floor.mp ?_
        have : (480 : ℤ) < ⌊(h : ℚ) * ((TARGET_HORIZONTAL_RES : ℚ) / (w : ℚ))⌋ := by
          simpa [TARGET_VERTICAL_RES] using hbr
        omega
      have hmul : (481 : ℚ) * (w : ℚ) ≤ 854 * (h : ℚ) := by
        rw [mul_div_assoc'] at h481
        rw [le_div_iff₀ hwQ] at h481
        simpa [TARGET_HORIZONTAL_RES, mul_comm] using h481
      have hlt : (w : ℚ) * ((TARGET_VERTICAL_RES : ℚ) / (h : ℚ)) < 854 := by
        rw [mul_div_assoc', div_lt_iff₀ hhQ]
        have : (w : ℚ) * (480 : ℚ) < 854 * (h : ℚ) := by nlinarith
        simpa [TARGET_VERTICAL_RES, mul_comm] using this
      have : ⌊(w : ℚ) * ((TARGET_VERTICAL_RES : ℚ) / (h : ℚ))⌋ < (854 : ℤ) := by
        refine Int.floor_lt.mpr ?_
        simpa using hlt
      simp only [TARGET_HORIZONTAL_RES]
      omega
  · rw [if_neg hbr] at hr
    obtain ⟨rfl, rfl⟩ : (TARGET_HORIZONTAL_RES = nw) ∧
        pyInt ((h : ℚ) * ((TARGET_HORIZONTAL_RES : ℚ) / (w : ℚ))) = nh := by
      have := hr
      simp only [Option.some.injEq, Prod.mk.injEq] at this
      exact this
    refine ⟨by norm_num [TARGET_HORIZONTAL_RES], le_refl _, ?_, not_lt.mp hbr⟩
    rw [pyInt_eq_floor hq1]
    exact Int.floor_nonneg.mpr hq1

/-! ## Claim theorems: arithmetic -/

/-- C1: for a 1920x1080 source, scaling to the 854-pixel target width gives a
truncated height of exactly 480, which sits right at the vertical cap, so the
refit branch is not taken and `calculate_new_resolution` returns `(854, 480)`. -/
theorem claim_resolution_1920_1080 :
    pyInt ((1080 : ℚ) * ((TARGET_HORIZONTAL_RES : ℚ) / (1920 : ℚ))) = 480 ∧
    ¬ TARGET_VERTICAL_RES < pyInt ((1080 : ℚ) * ((TARGET_HORIZONTAL_RES : ℚ) / (1920 : ℚ))) ∧
    calculate_new_resolution 1920 1080 = some (854, 480) := by
  refine ⟨?_, ?_, ?_⟩ <;> with_unfolding_all decide

/-- C2, counterexample: a 10000x1 source has positive width and height, yet
`calculate_new_resolution` returns the non-positive height 0, refuting the
claim that both returned dimensions are always positive. -/
theorem claim_resolution_positive_counterexample :
    (0 : ℤ) < 10000 ∧ (0 : ℤ) < 1 ∧
    calculate_new_resolution 10000 1 = some (854, 0) ∧
    ¬ (∀ w h : ℤ, 0 < w → 0 < h →
        ∀ p ∈ calculate_new_resolution w h, 0 < p.1 ∧ 0 < p.2) := by
  refine ⟨by norm_num, by norm_num, by with_unfolding_all decide, fun hall => ?_⟩
  have h10000 : calculate_new_resolution 10000 1 = some (854, 0) := by
    with_unfolding_all decide
  have := (hall 10000 1 (by norm_num) (by norm_num) (854, 0)
    (by rw [h10000]; exact Option.mem_def.mpr rfl)).2
  exact absurd this (by norm_num)

/-- C2, amended: on positive source dimensions `calculate_new_resolution`
returns a pair of integers that are nonnegative (positivity can fail, e.g.
for 10000x1) with width at most 854 and height at most 480. -/
theorem claim_resolution_bounds (w h : ℤ) (hw : 0 < w) (hh : 0 < h) :
    ∃ nw nh, calculate_new_resolution w h = some (nw, nh) ∧
      0 ≤ nw ∧ nw ≤ 854 ∧ 0 ≤ nh ∧ nh ≤ 480 := by
  obtain ⟨⟨nw, nh⟩, hp⟩ := calculate_new_resolution_isSome (w := w) (h := h) hw.ne'
  obtain ⟨h1, h2, h3, h4⟩ := calculate_new_resolution_le hw hh hp
  exact ⟨nw, nh, hp, h1, by simpa [TARGET_HORIZONTAL_RES] using h2, h3,
    by simpa [TARGET_VERTICAL_RES] using h4⟩

/-- C2, witness: the amended bounds instantiated at the 1920x1080 source. -/
theorem claim_resolution_bounds_witness :
    (0 : ℤ) < 1920 ∧ (0 : ℤ) < 1080 ∧
    ∃ nw nh, calculate_new_resolution 1920 1080 = some (nw, nh) ∧
      0 ≤ nw ∧ nw ≤ 854 ∧ 0 ≤ nh ∧ nh ≤ 480 :=
  ⟨by norm_num, by norm_num,
    claim_resolution_bounds 1920 1080 (by norm_num) (by norm_num)⟩

/-- C6: the GOP size is the frame rate times the fixed factor 0.5, truncated
to an integer: 12 for a 24 fps source and 14 for a 29.97 fps source. -/
theorem claim_gop_size :
    gop_size 24 = 12 ∧ gop_size (2997 / 100) = 14 ∧
    (∀ fr : ℚ, gop_size fr = pyInt (fr * (1 / 2))) := by
  refine ⟨by with_unfolding_all decide, by with_unfolding_all decide, fun fr => rfl⟩

/-! ## Structure of a single file step -/

/-- A file step never removes a name from the output folder. -/
theorem stepFile_existing_mono (env : Env) (root file : String)
    (existing : List String) {x : String} (hx : x ∈ existing) :
    x ∈ (stepFile env root file existing).existing := by
  unfold stepFile
  repeat' split
  all_goals simp_all [List.mem_append]

/-- A probe event in a file step pins down the step's inputs: the names
match, the extension filter passed, and no output of that name existed. -/
theorem stepFile_probe_mem {env : Env} {root file r f : String}
    {existing : List String}
    (hmem : Event.probe r f ∈ (stepFile env root file existing).trace) :
    r = root ∧ f = file ∧ is_video_file file = true ∧ file ∉ existing := by
  unfold stepFile at hmem
  repeat' split at hmem
  all_goals simp_all [Event.probe.injEq]

/-- A transcode event in a file step additionally requires a successful probe
whose bitrate reached the threshold. -/
theorem stepFile_transcode_mem {env : Env} {root file r f : String}
    {existing : List String}
    (hmem : Event.transcode r f ∈ (stepFile env root file existing).trace) :
    r = root ∧ f = file ∧ is_video_file file = true ∧ file ∉ existing ∧
      ∃ info, env.probe root file = some info ∧ ¬ info.bitrate < VIDEO_BITRATE := by
  unfold stepFile at hmem
  repeat' split at hmem
  all_goals simp_all [Event.transcode.injEq]

/-- An abort in a file step pins down its cause: the names match, a probe
succeeded above threshold, and either the resolution computation raised (zero
division) or `ffmpeg` exited nonzero. -/
theorem stepFile_abort_elim {env : Env} {root file : String}
    {existing : List String} {a : AbortKind}
    (ha : (stepFile env root file existing).abort = some a) :
    is_video_file file = true ∧ file ∉ existing ∧
      ∃ info, env.probe root file = some info ∧ ¬ info.bitrate < VIDEO_BITRATE ∧
        ((a = AbortKind.zeroDiv root file ∧
            calculate_new_resolution info.width info.height = none) ∨
          (a = AbortKind.ffmpegFail root file ∧
            env.transcodeOk root file = false)) := by
  unfold stepFile at ha
  repeat' split at ha
  all_goals simp_all

/-- A file whose probe fails contributes no abort and leaves the output
folder unchanged. -/
theorem stepFile_probe_none {env : Env} {root file : String}
    {existing : List String} (hp : env.probe root file = none) :
    (stepFile env root file existing).abort = none ∧
      (stepFile env root file existing).existing = existing := by
  unfold stepFile
  repeat' split
  all_goals simp_all

/-! ## Structure of the file loop -/

/-- The file loop never removes a name from the output folder. -/
theorem runFiles_existing_mono (env : Env) (root : String)
    (files : List String) : ∀ (existing : List String) {x : String}, x ∈ existing →
      x ∈ (runFiles env root files existing).existing := by
  induction files with
  | nil => intro existing x hx; simpa [runFiles] using hx
  | cons file files ih =>
    intro existing x hx
    simp only [runFiles]
    by_cases hab : (stepFile env root file existing).abort.isSome = true
    · simpa [hab] using stepFile_existing_mono env root file existing hx
    · rw [if_neg hab]
      exact ih _ (stepFile_existing_mono env root file existing hx)

/-- Every event of the file loop arises from a step on one of its files,
run against some superset of the initial output-folder contents. -/
theorem runFiles_trace_mem {env : Env} {root : String} {e : Event} :
    ∀ {files existing : List String},
      e ∈ (runFiles env root files existing).trace →
      ∃ file ex2, file ∈ files ∧ (∀ x ∈ existing, x ∈ ex2) ∧
        e ∈ (stepFile env root file ex2).trace := by
  intro files
  induction files with
  | nil => intro existing h; simp [runFiles] at h
  | cons file files ih =>
    intro existing h
    simp only [runFiles] at h
    by_cases hab : (stepFile env root file existing).abort.isSome = true
    · rw [if_pos hab] at h
      exact ⟨file, existing, List.mem_cons_self file files, fun x hx => hx, h⟩
    · rw [if_neg hab] at h
      simp only [List.mem_append] at h
      rcases h with h | h
      · exact ⟨file, existing, List.mem_cons_self file files, fun x hx => hx, h⟩
      · obtain ⟨f2, ex2, hf2, hsub, hmem⟩ := ih h
        exact ⟨f2, ex2, List.mem_cons_of_mem file hf2,
          fun x hx => hsub x (stepFile_existing_mono env root file existing hx), hmem⟩

/-- An abort of the file loop is the abort of a step on one of its files. -/
theorem runFiles_abort_elim {env : Env} {root : String} {a : AbortKind} :
    ∀ {files existing : List String},
      (runFiles env root files existing).abort = some a →
      ∃ file ex2, file ∈ files ∧ (stepFile env root file ex2).abort = some a := by
  intro files
  induction files with
  | nil => intro existing h; simp [runFiles] at h
  | cons file files ih =>
    intro existing h
    simp only [runFiles] at h
    by_cases hab : (stepFile env root file existing).abort.isSome = true
    · rw [if_pos hab] at h
      exact ⟨file, existing, List.mem_cons_self file files, h⟩
    · rw [if_neg hab] at h
      obtain ⟨f2, ex2, hf2, hmem⟩ := ih h
      exact ⟨f2, ex2, List.mem_cons_of_mem file hf2, hmem⟩

/-! ## Structure of the walk loop -/

/-- The walk never removes a name from the output folder. -/
theorem runWalk_existing_mono (env : Env)
    (walk : List (String × List String)) :
    ∀ (existing : List String) {x : String}, x ∈ existing →
      x ∈ (runWalk env walk existing).existing := by
  induction walk with
  | nil => intro existing x hx; simpa [runWalk] using hx
  | cons entry rest ih =>
    intro existing x hx
    obtain ⟨root, files⟩ := entry
    simp only [runWalk]
    by_cases hcv : containsL root.data CUSTOM_VERSIONS.data = true
    · rw [if_pos hcv]
      exact ih _ hx
    · rw [if_neg hcv]
      by_cases hab : (runFiles env root files existing).abort.isSome = true
      · simpa [hab] using runFiles_existing_mono env root files existing hx
      · rw [if_neg hab]
        exact ih _ (runFiles_existing_mono env root files existing hx)

/-- Every event of the walk arises from the file loop of a walk entry whose
directory path does not contain `"Custom Versions"`. -/
theorem runWalk_trace_mem {env : Env} {e : Event} :
    ∀ {walk : List (String × List String)} {existing : List String},
      e ∈ (runWalk env walk existing).trace →
      ∃ root files ex2, (root, files) ∈ walk ∧
        containsL root.data CUSTOM_VERSIONS.data = false ∧
        (∀ x ∈ existing, x ∈ ex2) ∧ e ∈ (runFiles env root files ex2).trace := by
  intro walk
  induction walk with
  | nil => intro existing h; simp [runWalk] at h
  | cons entry rest ih =>
    intro existing h
    obtain ⟨root, files⟩ := entry
    simp only [runWalk] at h
    by_cases hcv : containsL root.data CUSTOM_VERSIONS.data = true
    · rw [if_pos hcv] at h
      obtain ⟨r2, fs2, ex2, hmem, hc2, hsub, he⟩ := ih h
      exact ⟨r2, fs2, ex2, List.mem_cons_of_mem _ hmem, hc2, hsub, he⟩
    · rw [if_neg hcv] at h
      have hcv' : containsL root.data CUSTOM_VERSIONS.data = false :=
        Bool.not_eq_true _ ▸ eq_false_of_ne_true hcv
      by_cases hab : (runFiles env root files existing).abort.isSome = true
      · rw [if_pos hab] at h
        exact ⟨root, files, existing, List.mem_cons_self _ _, hcv',
          fun x hx => hx, h⟩
      · rw [if_neg hab] at h
        simp only [List.mem_append] at h
        rcases h with h | h
        · exact ⟨root, files, existing, List.mem_cons_self _ _, hcv',
            fun x hx => hx, h⟩
        · obtain ⟨r2, fs2, ex2, hmem, hc2, hsub, he⟩ := ih h
          exact ⟨r2, fs2, ex2, List.mem_cons_of_mem _ hmem, hc2,
            fun x hx => hsub x (runFiles_existing_mono env root files existing hx), he⟩

/-- An abort of the walk is an abort of the file loop of one of its
non-skipped entries. -/
theorem runWalk_abort_elim {env : Env} {a : AbortKind} :
    ∀ {walk : List (String × List String)} {existing : List String},
      (runWalk env walk existing).abort = some a →
      ∃ root files ex2, (root, files) ∈ walk ∧
        containsL root.data CUSTOM_VERSIONS.data = false ∧
        (runFiles env root files ex2).abort = some a := by
  intro walk
  induction walk with
  | nil => intro existing h; simp [runWalk] at h
  | cons entry rest ih =>
    intro existing h
    obtain ⟨root, files⟩ := entry
    simp only [runWalk] at h
    by_cases hcv : containsL root.data CUSTOM_VERSIONS.data = true
    · rw [if_pos hcv] at h
      obtain ⟨r2, fs2, ex2, hmem, hc2, he⟩ := ih h
      exact ⟨r2, fs2, ex2, List.mem_cons_of_mem _ hmem, hc2, he⟩
    · rw [if_neg hcv] at h
      have hcv' : containsL root.data CUSTOM_VERSIONS.data = false :=
        Bool.not_eq_true _ ▸ eq_false_of_ne_true hcv
      by_cases hab : (runFiles env root files existing).abort.isSome = true
      · rw [if_pos hab] at h
        exact ⟨root, files, existing, List.mem_cons_self _ _, hcv', h⟩
      · rw [if_neg hab] at h
        obtain ⟨r2, fs2, ex2, hmem, hc2, he⟩ := ih h
        exact ⟨r2, fs2, ex2, List.mem_cons_of_mem _ hmem, hc2, he⟩

/-- Every event of a `process_videos` run arises from a step on a file of a
non-skipped walk entry, with the output folder a superset of its initial
contents. -/
theorem process_videos_trace_mem {env : Env}
    {walk : List (String × List String)} {e : Event}
    (h : e ∈ (process_videos env walk).trace) :
    ∃ root files file ex2, (root, files) ∈ walk ∧ file ∈ files ∧
      containsL root.data CUSTOM_VERSIONS.data = false ∧
      (∀ x ∈ env.existingOutputs, x ∈ ex2) ∧
      e ∈ (stepFile env root file ex2).trace := by
  obtain ⟨root, files, ex1, hmem, hcv, hsub1, he⟩ := runWalk_trace_mem h
  obtain ⟨file, ex2, hf, hsub2, he2⟩ := runFiles_trace_mem he
  exact ⟨root, files, file, ex2, hmem, hf, hcv,
    fun x hx => hsub2 x (hsub1 x hx), he2⟩

/-- Every abort of a `process_videos` run is the abort of a step on a file of
a non-skipped walk entry. -/
theorem process_videos_abort_elim {env : Env}
    {walk : List (String × List String)} {a : AbortKind}
    (h : (process_videos env walk).abort = some a) :
    ∃ root files file ex2, (root, files) ∈ walk ∧ file ∈ files ∧
      containsL root.data CUSTOM_VERSIONS.data = false ∧
      (stepFile env root file ex2).abort = some a := by
  obtain ⟨root, files, ex1, hmem, hcv, he⟩ := runWalk_abort_elim h
  obtain ⟨file, ex2, hf, he2⟩ := runFiles_abort_elim he
  exact ⟨root, files, file, ex2, hmem, hf, hcv, he2⟩

/-! ## Claim theorems: skipping behavior -/

/-- C3: a source file whose probe reports a bitrate below the 1000 kbps
threshold is skipped: the transcoder is never invoked for it, and since
output files are written only by the transcoder invocation, no output file is
produced for it. -/
theorem claim_low_bitrate_skipped (env : Env)
    (walk : List (String × List String)) (root f : String) (info : ProbeInfo)
    (hp : env.probe root f = some info) (hb : info.bitrate < VIDEO_BITRATE) :
    Event.transcode root f ∉ (process_videos env walk).trace := by
  intro hmem
  obtain ⟨r2, fs2, f2, ex2, _, _, _, _, he⟩ := process_videos_trace_mem hmem
  obtain ⟨hr, hf, _, _, info2, hp2, hb2⟩ := stepFile_transcode_mem he
  rw [← hr, ← hf, hp] at hp2
  injection hp2 with hinfo
  rw [← hinfo] at hb2
  exact hb2 hb

/-- C3, witness: a source probed at 500 kbps in a one-file library is never
transcoded. -/
theorem claim_low_bitrate_skipped_witness :
    (Env.mk (fun _ _ => some ⟨24, 500, 1920, 1080⟩) [] fun _ _ => true).probe
        "/lib/M" "a.mp4" = some ⟨24, 500, 1920, 1080⟩ ∧
    (⟨24, 500, 1920, 1080⟩ : ProbeInfo).bitrate < VIDEO_BITRATE ∧
    Event.transcode "/lib/M" "a.mp4" ∉
      (process_videos (Env.mk (fun _ _ => some ⟨24, 500, 1920, 1080⟩) [] fun _ _ => true)
        [("/lib/M", ["a.mp4"])]).trace :=
  ⟨rfl, by norm_num [VIDEO_BITRATE],
    claim_low_bitrate_skipped _ [("/lib/M", ["a.mp4"])] "/lib/M" "a.mp4"
      ⟨24, 500, 1920, 1080⟩ rfl (by norm_num [VIDEO_BITRATE])⟩

/-- C4: a candidate file whose name is already present in the output folder
is skipped before probing: neither the probe nor the transcoder ever runs for
a file of that name, and the name is still present in the output folder at
the end of the run. -/
theorem claim_existing_output_skipped (env : Env)
    (walk : List (String × List String)) (f : String)
    (hf : f ∈ env.existingOutputs) :
    (∀ root, Event.probe root f ∉ (process_videos env walk).trace ∧
      Event.transcode root f ∉ (process_videos env walk).trace) ∧
    f ∈ (process_videos env walk).existing := by
  refine ⟨fun root => ⟨?_, ?_⟩, ?_⟩
  · intro hmem
    obtain ⟨r2, fs2, f2, ex2, _, _, _, hsub, he⟩ := process_videos_trace_mem hmem
    obtain ⟨_, hff, _, hnex⟩ := stepFile_probe_mem he
    exact hnex (hff ▸ hsub f hf)
  · intro hmem
    obtain ⟨r2, fs2, f2, ex2, _, _, _, hsub, he⟩ := process_videos_trace_mem hmem
    obtain ⟨_, hff, _, hnex, _⟩ := stepFile_transcode_mem he
    exact hnex (hff ▸ hsub f hf)
  · exact runWalk_existing_mono env walk env.existingOutputs hf

/-- C4, witness: with `a.mp4` already converted, a library containing a
source of the same name is neither probed nor transcoded. -/
theorem claim_existing_output_skipped_witness :
    "a.mp4" ∈ (Env.mk (fun _ _ => some ⟨24, 2000, 1920, 1080⟩) ["a.mp4"]
        fun _ _ => true).existingOutputs ∧
    ((∀ root, Event.probe root "a.mp4" ∉
        (process_videos (Env.mk (fun _ _ => some ⟨24, 2000, 1920, 1080⟩) ["a.mp4"]
          fun _ _ => true) [("/lib/M", ["a.mp4"])]).trace ∧
      Event.transcode root "a.mp4" ∉
        (process_videos (Env.mk (fun _ _ => some ⟨24, 2000, 1920, 1080⟩) ["a.mp4"]
          fun _ _ => true) [("/lib/M", ["a.mp4"])]).trace) ∧
    "a.mp4" ∈ (process_videos (Env.mk (fun _ _ => some ⟨24, 2000, 1920, 1080⟩) ["a.mp4"]
        fun _ _ => true) [("/lib/M", ["a.mp4"])]).existing) :=
  ⟨by decide,
    claim_existing_output_skipped _ [("/lib/M", ["a.mp4"])] "a.mp4" (by decide)⟩

/-- C5: no file in a directory whose path contains the `"Custom Versions"`
output-subfolder marker is ever probed or transcoded — every path under the
designated output subfolder contains that substring, so outputs are never
reprocessed. -/
theorem claim_custom_versions_skipped (env : Env)
    (walk : List (String × List String)) (root f : String)
    (hcv : containsL root.data CUSTOM_VERSIONS.data = true) :
    Event.probe root f ∉ (process_videos env walk).trace ∧
    Event.transcode root f ∉ (process_videos env walk).trace := by
  constructor
  · intro hmem
    obtain ⟨r2, fs2, f2, ex2, _, _, hc2, _, he⟩ := process_videos_trace_mem hmem
    obtain ⟨hr, _, _, _⟩ := stepFile_probe_mem he
    rw [hr, hc2] at hcv
    exact Bool.noConfusion hcv
  · intro hmem
    obtain ⟨r2, fs2, f2, ex2, _, _, hc2, _, he⟩ := process_videos_trace_mem hmem
    obtain ⟨hr, _, _, _, _⟩ := stepFile_transcode_mem he
    rw [hr, hc2] at hcv
    exact Bool.noConfusion hcv

/-- C5, witness: a file lying under `Custom Versions/1Mbps` is never probed
in a run whose walk visits that directory. -/
theorem claim_custom_versions_skipped_witness :
    containsL "/lib/M/Custom Versions/1Mbps".data CUSTOM_VERSIONS.data = true ∧
    Event.probe "/lib/M/Custom Versions/1Mbps" "a.mp4" ∉
      (process_videos (Env.mk (fun _ _ => some ⟨24, 2000, 1920, 1080⟩) [] fun _ _ => true)
        [("/lib/M/Custom Versions/1Mbps", ["a.mp4"])]).trace :=
  ⟨by decide,
    (claim_custom_versions_skipped _ [("/lib/M/Custom Versions/1Mbps", ["a.mp4"])]
      "/lib/M/Custom Versions/1Mbps" "a.mp4" (by decide)).1⟩

/-! ## Claim theorems: error handling -/

/-- C7: a file whose probe fails is caught, skipped — never transcoded and
never the cause of a run abort — and processing continues with the remaining
files unchanged. -/
theorem claim_probe_failure_skips (env : Env)
    (walk : List (String × List String)) (root f : String)
    (hp : env.probe root f = none) :
    Event.transcode root f ∉ (process_videos env walk).trace ∧
    (process_videos env walk).abort ≠ some (AbortKind.zeroDiv root f) ∧
    (process_videos env walk).abort ≠ some (AbortKind.ffmpegFail root f) ∧
    ∀ (existing rest : List String), runFiles env root (f :: rest) existing =
      ⟨(stepFile env root f existing).trace ++
          (runFiles env root rest existing).trace,
        (runFiles env root rest existing).existing,
        (runFiles env root rest existing).abort⟩ := by
  refine ⟨?_, ?_, ?_, ?_⟩
  · intro hmem
    obtain ⟨r2, fs2, f2, ex2, _, _, _, _, he⟩ := process_videos_trace_mem hmem
    obtain ⟨hr, hf, _, _, info2, hp2, _⟩ := stepFile_transcode_mem he
    rw [← hr, ← hf, hp] at hp2
    exact Option.noConfusion hp2
  · intro habort
    obtain ⟨r2, fs2, f2, ex2, _, _, _, he⟩ := process_videos_abort_elim habort
    obtain ⟨_, _, info2, hp2, _, hcase⟩ := stepFile_abort_elim he
    rcases hcase with ⟨ha, _⟩ | ⟨ha, _⟩ <;>
      [skip; exact AbortKind.noConfusion ha]
    obtain ⟨hr, hf⟩ := AbortKind.zeroDiv.inj ha
    rw [← hr, ← hf, hp] at hp2
    exact Option.noConfusion hp2
  · intro habort
    obtain ⟨r2, fs2, f2, ex2, _, _, _, he⟩ := process_videos_abort_elim habort
    obtain ⟨_, _, info2, hp2, _, hcase⟩ := stepFile_abort_elim he
    rcases hcase with ⟨ha, _⟩ | ⟨ha, _⟩ <;>
      [exact AbortKind.noConfusion ha; skip]
    obtain ⟨hr, hf⟩ := AbortKind.ffmpegFail.inj ha
    rw [← hr, ← hf, hp] at hp2
    exact Option.noConfusion hp2
  · intro existing rest
    obtain ⟨hab, hex⟩ := @stepFile_probe_none env root f existing hp
    simp only [runFiles, hab, hex, Option.isSome_none, Bool.false_eq_true, if_false]

/-- C7, witness: with every probe failing, a two-file library transcodes
nothing, aborts nowhere, and the loop steps past the first file. -/
theorem claim_probe_failure_skips_witness :
    (Env.mk (fun _ _ => none) [] fun _ _ => true).probe "/lib/M" "a.mp4" = none ∧
    Event.transcode "/lib/M" "a.mp4" ∉
      (process_videos (Env.mk (fun _ _ => none) [] fun _ _ => true)
        [("/lib/M", ["a.mp4", "b.mp4"])]).trace ∧
    runFiles (Env.mk (fun _ _ => none) [] fun _ _ => true) "/lib/M"
        ["a.mp4", "b.mp4"] [] =
      ⟨(stepFile (Env.mk (fun _ _ => none) [] fun _ _ => true) "/lib/M" "a.mp4" []).trace ++
          (runFiles (Env.mk (fun _ _ => none) [] fun _ _ => true) "/lib/M" ["b.mp4"] []).trace,
        (runFiles (Env.mk (fun _ _ => none) [] fun _ _ => true) "/lib/M" ["b.mp4"] []).existing,
        (runFiles (Env.mk (fun _ _ => none) [] fun _ _ => true) "/lib/M" ["b.mp4"] []).abort⟩ :=
  ⟨rfl,
    (claim_probe_failure_skips _ [("/lib/M", ["a.mp4", "b.mp4"])] "/lib/M" "a.mp4" rfl).1,
    (claim_probe_failure_skips _ [("/lib/M", ["a.mp4", "b.mp4"])] "/lib/M" "a.mp4" rfl).2.2.2
      [] ["b.mp4"]⟩

/-- C8: a nonzero `ffmpeg` exit is not caught anywhere: the step aborts, the
remaining files of the entry, the remaining walk entries and the remaining
library folders are all left unprocessed. -/
theorem claim_ffmpeg_failure_aborts (env : Env) (root f : String)
    (rest : List String) (walkRest : List (String × List String))
    (folders : List (Env × List (String × List String))) (info : ProbeInfo)
    (hv : is_video_file f = true) (hex : f ∉ env.existingOutputs)
    (hp : env.probe root f = some info) (hb : ¬ info.bitrate < VIDEO_BITRATE)
    (hw : info.width ≠ 0) (ht : env.transcodeOk root f = false)
    (hcv : containsL root.data CUSTOM_VERSIONS.data = false) :
    stepFile env root f env.existingOutputs =
      ⟨[Event.probe root f, Event.transcode root f], env.existingOutputs,
        some (AbortKind.ffmpegFail root f)⟩ ∧
    runFiles env root (f :: rest) env.existingOutputs =
      ⟨[Event.probe root f, Event.transcode root f], env.existingOutputs,
        some (AbortKind.ffmpegFail root f)⟩ ∧
    process_videos env ((root, f :: rest) :: walkRest) =
      ⟨[Event.probe root f, Event.transcode root f], env.existingOutputs,
        some (AbortKind.ffmpegFail root f)⟩ ∧
    runLibrary ((env, (root, f :: rest) :: walkRest) :: folders) =
      ([Event.probe root f, Event.transcode root f],
        some (AbortKind.ffmpegFail root f)) := by
  obtain ⟨p, hcalc⟩ := calculate_new_resolution_isSome (h := info.height) hw
  have hstep : stepFile env root f env.existingOutputs =
      ⟨[Event.probe root f, Event.transcode root f], env.existingOutputs,
        some (AbortKind.ffmpegFail root f)⟩ := by
    rw [stepFile, if_pos hv, if_neg hex, hp]
    simp only [if_neg hb, hcalc, ht, Bool.false_eq_true, if_false]
  have hfiles : runFiles env root (f :: rest) env.existingOutputs =
      ⟨[Event.probe root f, Event.transcode root f], env.existingOutputs,
        some (AbortKind.ffmpegFail root f)⟩ := by
    simp only [runFiles, hstep, Option.isSome_some, if_true]
  have hwalkrun : process_videos env ((root, f :: rest) :: walkRest) =
      ⟨[Event.probe root f, Event.transcode root f], env.existingOutputs,
        some (AbortKind.ffmpegFail root f)⟩ := by
    rw [process_videos, runWalk, if_neg (by simp [hcv])]
    simp only [hfiles, Option.isSome_some, if_true]
  refine ⟨hstep, hfiles, hwalkrun, ?_⟩
  rw [runLibrary]
  simp only [hwalkrun, Option.isSome_some, if_true]

/-- C8, witness: a one-folder library whose only file probes at 2000 kbps and
whose transcoder always fails aborts after that file, processing nothing
else. -/
theorem claim_ffmpeg_failure_aborts_witness :
    is_video_file "a.mp4" = true ∧
    (Env.mk (fun _ _ => some ⟨24, 2000, 1920, 1080⟩) [] fun _ _ => false).transcodeOk
        "/lib/M" "a.mp4" = false ∧
    runLibrary [(Env.mk (fun _ _ => some ⟨24, 2000, 1920, 1080⟩) [] fun _ _ => false,
        [("/lib/M", ["a.mp4", "b.mp4"]), ("/lib/M/Extras", ["c.mp4"])])] =
      ([Event.probe "/lib/M" "a.mp4", Event.transcode "/lib/M" "a.mp4"],
        some (AbortKind.ffmpegFail "/lib/M" "a.mp4")) :=
  ⟨by decide, rfl,
    (claim_ffmpeg_failure_aborts
      (Env.mk (fun _ _ => some ⟨24, 2000, 1920, 1080⟩) [] fun _ _ => false)
      "/lib/M" "a.mp4" ["b.mp4"] [("/lib/M/Extras", ["c.mp4"])] []
      ⟨24, 2000, 1920, 1080⟩ (by decide) (by decide) rfl
      (by norm_num [VIDEO_BITRATE]) (by norm_num) rfl (by decide)).2.2.2⟩

/-! ## Claim theorems: file selection and the zero-width hazard -/

/-- The Boolean leading-segment test agrees with the list `IsPrefix`
relation. -/
theorem startsWithL_iff : ∀ s p : List Char, startsWithL s p = true ↔ p <+: s
  | _, [] => by simp [startsWithL]
  | [], _ :: _ => by simp [startsWithL]
  | a :: s, b :: p => by
    rw [startsWithL, Bool.and_eq_true, beq_iff_eq, startsWithL_iff s p,
      List.cons_prefix_cons]
    exact and_congr_left fun _ => eq_comm

/-- The Boolean trailing-segment test agrees with the list `IsSuffix`
relation: Python's `str.endswith`. -/
theorem endsWithL_iff (s p : List Char) : endsWithL s p = true ↔ p <:+ s := by
  rw [endsWithL, startsWithL_iff]
  exact List.reverse_prefix

/-- C9: `is_video_file` selects a name exactly when it ends (case-sensitive)
in `.mp4`, `.mkv`, `.webm` or `.avi`; an upper-case `.MP4` is rejected, and a
rejected name is never probed or transcoded. -/
theorem claim_video_extensions :
    (∀ f : String, is_video_file f = true ↔
      (".mp4".data <:+ f.data ∨ ".mkv".data <:+ f.data ∨
        ".webm".data <:+ f.data ∨ ".avi".data <:+ f.data)) ∧
    is_video_file "movie.MP4" = false ∧ is_video_file "movie.mp4" = true ∧
    ∀ (env : Env) (walk : List (String × List String)) (root f : String),
      is_video_file f = false →
      Event.probe root f ∉ (process_videos env walk).trace ∧
      Event.transcode root f ∉ (process_videos env walk).trace := by
  refine ⟨?_, by decide, by decide, ?_⟩
  · intro f
    simp [is_video_file, endsWithL_iff, or_assoc]
  · intro env walk root f hnv
    constructor
    · intro hmem
      obtain ⟨r2, fs2, f2, ex2, _, _, _, _, he⟩ := process_videos_trace_mem hmem
      obtain ⟨_, hf, hv, _⟩ := stepFile_probe_mem he
      rw [← hf, hnv] at hv
      exact Bool.noConfusion hv
    · intro hmem
      obtain ⟨r2, fs2, f2, ex2, _, _, _, _, he⟩ := process_videos_trace_mem hmem
      obtain ⟨_, hf, hv, _, _⟩ := stepFile_transcode_mem he
      rw [← hf, hnv] at hv
      exact Bool.noConfusion hv

/-- C9, witness: the rejected name `movie.MP4` is never probed in a library
that contains it. -/
theorem claim_video_extensions_witness :
    is_video_file "movie.MP4" = false ∧
    Event.probe "/lib/M" "movie.MP4" ∉
      (process_videos (Env.mk (fun _ _ => some ⟨24, 2000, 1920, 1080⟩) [] fun _ _ => true)
        [("/lib/M", ["movie.MP4"])]).trace :=
  ⟨claim_video_extensions.2.1,
    (claim_video_extensions.2.2.2 _ [("/lib/M", ["movie.MP4"])] "/lib/M" "movie.MP4"
      (by decide)).1⟩

/-- C10: a successful probe reporting width 0 with bitrate at or above the
threshold is not skipped: `calculate_new_resolution` is reached and raises on
the division by the zero width, aborting the run right after the probe, with
the remaining files unprocessed. -/
theorem claim_zero_width_aborts (env : Env) (root f : String)
    (rest existing : List String) (info : ProbeInfo)
    (hv : is_video_file f = true) (hex : f ∉ existing)
    (hp : env.probe root f = some info) (hb : ¬ info.bitrate < VIDEO_BITRATE)
    (hw : info.width = 0) :
    calculate_new_resolution info.width info.height = none ∧
    stepFile env root f existing =
      ⟨[Event.probe root f], existing, some (AbortKind.zeroDiv root f)⟩ ∧
    runFiles env root (f :: rest) existing =
      ⟨[Event.probe root f], existing, some (AbortKind.zeroDiv root f)⟩ := by
  have hcalc : calculate_new_resolution info.width info.height = none := by
    rw [hw, calculate_new_resolution, if_pos rfl]
  have hstep : stepFile env root f existing =
      ⟨[Event.probe root f], existing, some (AbortKind.zeroDiv root f)⟩ := by
    rw [stepFile, if_pos hv, if_neg hex, hp]
    simp only [if_neg hb, hcalc]
  refine ⟨hcalc, hstep, ?_⟩
  simp only [runFiles, hstep, Option.isSome_some, if_true]

/-- C10, witness: a probe reporting `width = 0` at 2000 kbps aborts the inner
loop right after the probe of the offending file. -/
theorem claim_zero_width_aborts_witness :
    (Env.mk (fun _ _ => some ⟨24, 2000, 0, 1080⟩) [] fun _ _ => true).probe
        "/lib/M" "a.mp4" = some ⟨24, 2000, 0, 1080⟩ ∧
    (⟨24, 2000, 0, 1080⟩ : ProbeInfo).width = 0 ∧
    runFiles (Env.mk (fun _ _ => some ⟨24, 2000, 0, 1080⟩) [] fun _ _ => true)
        "/lib/M" ["a.mp4", "b.mp4"] [] =
      ⟨[Event.probe "/lib/M" "a.mp4"], [],
        some (AbortKind.zeroDiv "/lib/M" "a.mp4")⟩ :=
  ⟨rfl, rfl,
    (claim_zero_width_aborts _ "/lib/M" "a.mp4" ["b.mp4"] [] ⟨24, 2000, 0, 1080⟩
      (by decide) (by decide) rfl (by norm_num [VIDEO_BITRATE]) rfl).2.2⟩
